import Mathlib

/-!
Verification of the Chrome sandbox automation platform against its
natural-language specification.

The development shallowly embeds the JavaScript sources:
- `server/sandboxManager.js` (src/unnamed/part_004): `SandboxManager` with
  `createSandboxes`, `serializeSandbox`, `listSandboxes`, `saveCookies`,
  `deleteSandbox`;
- `server/utils.js`: `sanitizeFilename`, `parseAccounts`, `isElementVisible`,
  `findClickableByText`;
- the PowerShell cookie-export script generated by `src/111.bat`
  (`cookiesMap` de-duplication and `Sort-Object domain, path, name`).

Strings from the source are modelled as Lean `String`s; where the source
splits and scans strings character by character (account parsing), the
embedding works on `List Char`, matching JavaScript single-character
`String.split` semantics.  Asynchronous effects (process launch, CDP
traffic, file writes) are modelled by explicit outcome parameters and
emitted action traces.
-/

namespace SandboxPlatform

/-! ## Characters and low-level string helpers -/

/-- Whitespace as recognised by JavaScript `String.trim` on the inputs that
occur here (space, tab, CR, LF). -/
def isSpaceB (c : Char) : Bool :=
  c = ' ' || c = '\t' || c = '\n' || c = '\r'

/-- Trim whitespace from both ends of a character list (JS `String.trim`). -/
def trimChars (cs : List Char) : List Char :=
  ((cs.dropWhile isSpaceB).reverse.dropWhile isSpaceB).reverse

/-- Split a character list at every occurrence of `sep`, like the JavaScript
`String.split` with a single-character separator: `"a;;b".split(";")` is
`["a", "", "b"]` and `"".split(";")` is `[""]`. -/
def splitOnChar (sep : Char) : List Char → List (List Char)
  | [] => [[]]
  | c :: cs =>
    if c = sep then [] :: splitOnChar sep cs
    else
      match splitOnChar sep cs with
      | [] => [[c]]
      | p :: ps => (c :: p) :: ps

/-! ## sanitizeFilename (server/utils.js) -/

/-- Characters kept by `sanitizeFilename`: the class `[a-zA-Z0-9._-]`. -/
def isSafeChar (c : Char) : Bool :=
  (('a' ≤ c && c ≤ 'z') || ('A' ≤ c && c ≤ 'Z') || ('0' ≤ c && c ≤ '9')
    || c = '.' || c = '_' || c = '-')

/-- `sanitizeFilename` from server/utils.js: every character outside
`[a-zA-Z0-9._-]` is replaced by an underscore. -/
def sanitizeFilename (s : String) : String :=
  (s.data.map (fun c => if isSafeChar c then c else '_')).asString

/-! ## parseAccounts (server/utils.js) -/

/-- A parsed identity record: email, password, recovery email. -/
structure IdentityRecord where
  email : String
  password : String
  recoveryEmail : String
deriving DecidableEq, Repr

/-- A structured account object as received in the `accounts` array of a
create request (before filtering). -/
structure AccountInput where
  email : String
  password : String
  recoveryEmail : String
deriving DecidableEq, Repr

/-- The separator loop of `parseAccounts`: try each separator in order; on
the first separator present in the line, split and keep the parts; stop as
soon as a split yields at least three fields. -/
def sepLoop (clean : List Char) (parts : List (List Char)) :
    List Char → List (List Char)
  | [] => parts
  | sep :: rest =>
    if clean.contains sep then
      let p := (splitOnChar sep clean).map trimChars
      if 3 ≤ p.length then p else sepLoop clean p rest
    else sepLoop clean parts rest

/-- Parse one raw line of the account list (the per-line body of
`parseAccounts`): trim, try separators `; , <tab> |` in order, fall back to
`-` when fewer than three fields were produced, and keep the line only when
at least three fields result. -/
def parseLine (line : List Char) : Option IdentityRecord :=
  let clean := trimChars line
  if clean.isEmpty then none
  else
    let parts := sepLoop clean [] [';', ',', '\t', '|']
    let parts :=
      if parts.length < 3 && clean.contains '-' then
        (splitOnChar '-' clean).map trimChars
      else parts
    match parts with
    | p0 :: p1 :: p2 :: _ =>
      some ⟨p0.asString, p1.asString, p2.asString⟩
    | _ => none

/-- Split raw text into lines at `\r?\n` (JS `raw.split(/\r?\n/)`). -/
def splitLines (raw : List Char) : List (List Char) :=
  (splitOnChar '\n' raw).map
    (fun l => if l.getLast? = some '\r' then l.dropLast else l)

/-- A field value that survives parsing verbatim: non-empty, free of
whitespace and of every separator character the parser recognises. -/
def cleanField (f : List Char) : Prop :=
  f ≠ [] ∧ ∀ c ∈ f,
    isSpaceB c = false ∧ c ∉ ([';', ',', '\t', '|', '-'] : List Char)

instance (f : List Char) : Decidable (cleanField f) := by
  unfold cleanField; infer_instance

/-- `parseAccounts` from server/utils.js: keep structured accounts that have
a non-empty email and password, then parse every line of the raw text. -/
def parseAccounts (accounts : List AccountInput) (rawAccounts : String) :
    List IdentityRecord :=
  let parsed := (accounts.filter
      (fun a => !(a.email = "") && !(a.password = ""))).map
    (fun a => ({ email := a.email, password := a.password,
                 recoveryEmail := a.recoveryEmail } : IdentityRecord))
  if (trimChars rawAccounts.data).isEmpty then parsed
  else parsed ++ (splitLines rawAccounts.data).filterMap parseLine

/-! ## SandboxManager data model (server/sandboxManager.js) -/

/-- A sandbox entry as stored in `this.sandboxes`.  The puppeteer browser
and page objects are modelled by presence flags (the code only ever tests
them for truthiness along the paths covered here). -/
structure Sandbox where
  id : Nat
  status : String
  defaultUrl : String
  account : Option IdentityRecord
  useGoogleLogin : Bool
  enableSiteAutomation : Bool
  userDataDir : Option String
  browser : Bool
  page : Bool
  currentUrl : Option String
  cookieFile : Option String
  error : Option String
deriving DecidableEq, Repr

/-- The read-only snapshot produced by `serializeSandbox`: exactly the
fields id, status, defaultUrl, currentUrl, account email (or null),
cookieFile, error. -/
structure Snapshot where
  id : Nat
  status : String
  defaultUrl : String
  currentUrl : Option String
  accountEmail : Option String
  cookieFile : Option String
  error : Option String
deriving DecidableEq, Repr

/-- Manager state: the id sequence counter and the registry map, modelled
as an insertion-ordered association list (JS `Map` preserves insertion
order and has unique keys). -/
structure Manager where
  sequence : Nat
  sandboxes : List (Nat × Sandbox)
deriving Repr

/-- The manager right after the constructor ran: sequence 1, no entries. -/
def Manager.fresh : Manager := { sequence := 1, sandboxes := [] }

/-- Look an id up in the registry. -/
def registryFind (m : Manager) (id : Nat) : Option Sandbox :=
  (m.sandboxes.find? (fun p => p.1 = id)).map Prod.snd

/-- `serializeSandbox`: the snapshot restricted to the public fields;
the bound account is reduced to its email. -/
def serializeSandbox (s : Sandbox) : Snapshot :=
  { id := s.id
    status := s.status
    defaultUrl := s.defaultUrl
    currentUrl := s.currentUrl
    accountEmail := s.account.map IdentityRecord.email
    cookieFile := s.cookieFile
    error := s.error }

/-- `listSandboxes`: serialize every registry entry. -/
def listSandboxes (m : Manager) : List Snapshot :=
  m.sandboxes.map (fun p => serializeSandbox p.2)

/-- Options of a create request (`createSandboxes(options)`).
`defaultUrl = none` models a missing or non-string value; `count = none`
models an absent count (defaulted to 1). -/
structure CreateOptions where
  count : Option Int
  defaultUrl : Option String
  useGoogleLogin : Bool
  enableSiteAutomation : Bool
  accounts : List AccountInput
  rawAccounts : String

/-- The effective iteration bound of the create loop:
`Number(count || 1)` — an absent or zero count becomes 1, any other value
(including a negative one) is used as is; the `for` loop then runs
`max 0 count` times. -/
def effectiveCount (count : Option Int) : Int :=
  match count with
  | none => 1
  | some c => if c = 0 then 1 else c

/-- The sandbox object literal built for creation index `i`. -/
def mkSandbox (id : Nat) (url : String) (opts : CreateOptions)
    (account : Option IdentityRecord) : Sandbox :=
  { id := id
    status := "initializing"
    defaultUrl := url
    account := account
    useGoogleLogin := opts.useGoogleLogin
    enableSiteAutomation := opts.enableSiteAutomation
    userDataDir := none
    browser := false
    page := false
    currentUrl := none
    cookieFile := none
    error := none }

/-- `createSandboxes`: parse the account pool, validate the default URL
(reject a missing, non-string or empty value), then register one entry per
creation index with status initializing, assigning accounts round-robin,
and return the new state together with the initial snapshots and the list
of sandbox ids whose pipelines were started (one `launchSandbox` call per
created entry, not awaited). -/
def createSandboxes (m : Manager) (opts : CreateOptions) :
    Except String (Manager × List Snapshot × List Nat) :=
  let accounts := parseAccounts opts.accounts opts.rawAccounts
  match opts.defaultUrl with
  | none => .error "必须提供默认打开的链接"
  | some url =>
    if url = "" then .error "必须提供默认打开的链接"
    else
      let n := (effectiveCount opts.count).toNat
      let newSandboxes := (List.range n).map (fun i =>
        let account :=
          if accounts.length > 0 then accounts[i % accounts.length]?
          else none
        mkSandbox (m.sequence + i) url opts account)
      .ok ({ sequence := m.sequence + n
             sandboxes := m.sandboxes ++ newSandboxes.map (fun s => (s.id, s)) },
           newSandboxes.map serializeSandbox,
           newSandboxes.map Sandbox.id)

/-! ## Cookie harvest (saveCookies) and the tail of launchSandbox -/

/-- A harvested cookie record (the fields the orchestration inspects;
the `expires`/ISO rendering of the output line is orthogonal to every
claim and elided). -/
structure Cookie where
  name : String
  value : String
  domain : String
  path : String
deriving DecidableEq, Repr

/-- Strip a leading `www.` from a hostname
(`url.hostname.replace(/^www\./, "")`). -/
def stripWww (host : String) : String :=
  if host.startsWith "www." then host.drop 4 else host

/-- The cookie file name built by `saveCookies`: the sanitized account
email — or `sandbox-<id>` when no account is bound — then a dash, the
sanitized domain, and `.txt`. -/
def cookieFileName (account : Option IdentityRecord) (id : Nat)
    (domain : String) : String :=
  let emailPart :=
    match account with
    | some a => sanitizeFilename a.email
    | none => "sandbox-" ++ toString id
  emailPart ++ "-" ++ sanitizeFilename domain ++ ".txt"

/-- One line of the cookie file written by `saveCookies`
(`name=value; Domain=...; Path=...`). -/
def cookieLine (c : Cookie) : String :=
  c.name ++ "=" ++ c.value ++ "; Domain=" ++ c.domain ++ "; Path=" ++ c.path

/-- The lines `saveCookies` writes: one per harvested cookie, in the order
the CDP call returned them — no de-duplication and no sorting. -/
def saveCookiesLines (cookies : List Cookie) : List String :=
  cookies.map cookieLine

/-- Outcome of the control-channel interaction of `saveCookies`:
`none` models a CDP session that cannot be created or a failing
`Network.getAllCookies` call (the JavaScript promise rejects);
`some cookies` models a successful call returning that list. -/
def saveCookies (channel : Option (List Cookie))
    (account : Option IdentityRecord) (id : Nat) (hostname : String) :
    Except String (Option String) :=
  match channel with
  | none => .error "Protocol error"
  | some cookies =>
    if cookies.isEmpty then .ok none
    else .ok (some (cookieFileName account id (stripWww hostname)))

/-- The tail of `launchSandbox` around the harvest, for a pipeline that
reached the cookie-harvest step: `saveCookies` is awaited inside the `try`
block, so a success leaves the pipeline on its normal path (the next
statement sets status running, recording the cookie file if one was
written), while an exception is caught by the handler that sets status
error and stores the message. -/
def harvestStep (s : Sandbox) (channel : Option (List Cookie))
    (hostname : String) : Sandbox :=
  match saveCookies channel s.account s.id hostname with
  | .ok none => { s with status := "running" }
  | .ok (some file) => { s with status := "running", cookieFile := some file }
  | .error e => { s with status := "error", error := some e }

/-! ## deleteSandbox -/

/-- Externally observable resource actions of `deleteSandbox`, in the
order the code awaits them. -/
inductive DelAction where
  | terminateBrowser
  | removeProfileDir
  | removeRegistryEntry
deriving DecidableEq, Repr

/-- `deleteSandbox(id)`: throw NotFound when the id is absent; otherwise
mark the entry stopped, close the browser if one is attached, remove the
profile directory if one was created, and delete the registry entry — in
that order.  The returned trace records the awaited resource actions. -/
def deleteSandbox (m : Manager) (id : Nat) :
    Except String (Manager × List DelAction) :=
  match registryFind m id with
  | none => .error "找不到指定的沙箱"
  | some s =>
    let acts := (if s.browser then [DelAction.terminateBrowser] else [])
      ++ (if s.userDataDir.isSome then [DelAction.removeProfileDir] else [])
      ++ [DelAction.removeRegistryEntry]
    .ok ({ m with sandboxes := m.sandboxes.filter (fun p => p.1 ≠ id) }, acts)

/-! ## The cookie-export script generated by 111.bat -/

/-- The hashtable key of the export script:
`"{0}|{1}|{2}" -f domain, name, path`. -/
def cookieKey (c : Cookie) : String :=
  c.domain ++ "|" ++ c.name ++ "|" ++ c.path

/-- Assign `map[k] = c` in an association list: replace the existing entry
for `k` in place, or append a new one. -/
def upsert (k : String) (c : Cookie) :
    List (String × Cookie) → List (String × Cookie)
  | [] => [(k, c)]
  | p :: rest => if p.1 = k then (k, c) :: rest else p :: upsert k c rest

/-- The `cookiesMap` accumulation of the export script: every observed
cookie is written to the key `domain|name|path`, so a later observation
overwrites an earlier one with the same key. -/
def cookiesMap (cs : List Cookie) : List (String × Cookie) :=
  cs.foldl (fun m c => upsert (cookieKey c) c m) []

/-- Comparison used by `Sort-Object -Property domain, path, name`:
lexicographic on (domain, path, name). -/
def cookieLE (a b : Cookie) : Prop :=
  a.domain < b.domain ∨
    (a.domain = b.domain ∧
      (a.path < b.path ∨ (a.path = b.path ∧ a.name ≤ b.name)))

instance : DecidableRel cookieLE := fun a b => by
  unfold cookieLE; infer_instance

instance : IsTotal Cookie cookieLE where
  total a b := by
    unfold cookieLE
    rcases lt_trichotomy a.domain b.domain with h | h | h
    · exact Or.inl (Or.inl h)
    · rcases lt_trichotomy a.path b.path with h2 | h2 | h2
      · exact Or.inl (Or.inr ⟨h, Or.inl h2⟩)
      · rcases le_total a.name b.name with h3 | h3
        · exact Or.inl (Or.inr ⟨h, Or.inr ⟨h2, h3⟩⟩)
        · exact Or.inr (Or.inr ⟨h.symm, Or.inr ⟨h2.symm, h3⟩⟩)
      · exact Or.inr (Or.inr ⟨h.symm, Or.inl h2⟩)
    · exact Or.inr (Or.inl h)

instance : IsTrans Cookie cookieLE where
  trans a b c hab hbc := by
    unfold cookieLE at hab hbc ⊢
    rcases hab with h1 | ⟨hd1, h1⟩
    · rcases hbc with h2 | ⟨hd2, _⟩
      · exact Or.inl (h1.trans h2)
      · exact Or.inl (hd2 ▸ h1)
    · rcases hbc with h2 | ⟨hd2, h2⟩
      · exact Or.inl (hd1 ▸ h2)
      · refine Or.inr ⟨hd1.trans hd2, ?_⟩
        rcases h1 with hp1 | ⟨hp1, hn1⟩
        · rcases h2 with hp2 | ⟨hp2, _⟩
          · exact Or.inl (hp1.trans hp2)
          · exact Or.inl (hp2 ▸ hp1)
        · rcases h2 with hp2 | ⟨hp2, hn2⟩
          · exact Or.inl (hp1 ▸ hp2)
          · exact Or.inr ⟨hp1.trans hp2, hn1.trans hn2⟩

/-- The cookie list the export script writes: the de-duplicated map values
sorted by (domain, path, name). -/
def exportCookies (cs : List Cookie) : List Cookie :=
  List.insertionSort cookieLE ((cookiesMap cs).map Prod.snd)

/-- The last cookie of a list whose key is `k` (the last observation that
wrote to that key). -/
def lastWithKey (k : String) : List Cookie → Option Cookie
  | [] => none
  | c :: cs =>
    match lastWithKey k cs with
    | some d => some d
    | none => if cookieKey c = k then some c else none

/-- Association-list lookup. -/
def alookup (k : String) : List (String × Cookie) → Option Cookie
  | [] => none
  | p :: rest => if p.1 = k then some p.2 else alookup k rest

/-! ## Element matcher (server/utils.js) -/

/-- A candidate DOM element: tag name, rendered text, computed style and
bounding-box size — the attributes `findClickableByText` and
`isElementVisible` inspect. -/
structure Element where
  tag : String
  text : String
  display : String
  visibility : String
  width : Nat
  height : Nat
deriving DecidableEq, Repr

/-- `isElementVisible`: not hidden via `visibility:hidden` or
`display:none`, and a non-zero bounding box. -/
def isElementVisible (e : Element) : Bool :=
  !(e.visibility = "hidden") && !(e.display = "none")
    && decide (0 < e.width) && decide (0 < e.height)

/-- Lower-case ASCII letters, leaving every other character unchanged
(the `translate(normalize-space(...), A-Z, a-z)` of the XPath expression;
keyword lower-casing is modelled the same way, which agrees with
JavaScript `toLowerCase` on the ASCII keywords that occur). -/
def asciiLower (s : String) : String :=
  (s.data.map (fun c =>
    if 'A' ≤ c && c ≤ 'Z' then Char.ofNat (c.toNat + 32) else c)).asString

/-- Accumulate maximal whitespace-free runs of a character list (the
accumulator holds the current run reversed). -/
def wordsAux (acc : List Char) : List Char → List (List Char)
  | [] => if acc.isEmpty then [] else [acc.reverse]
  | c :: cs =>
    if isSpaceB c then
      if acc.isEmpty then wordsAux [] cs
      else acc.reverse :: wordsAux [] cs
    else wordsAux (c :: acc) cs

/-- XPath `normalize-space`: collapse whitespace runs into single spaces
and trim both ends. -/
def normalizeSpace (s : String) : String :=
  (List.intercalate [' '] (wordsAux [] s.data)).asString

/-- Boolean list-prefix test. -/
def prefixB : List Char → List Char → Bool
  | [], _ => true
  | _ :: _, [] => false
  | a :: as, b :: bs => a = b && prefixB as bs

/-- Boolean substring test (contiguous). -/
def substrB (needle : List Char) : List Char → Bool
  | [] => prefixB needle []
  | b :: bs => prefixB needle (b :: bs) || substrB needle bs

/-- The XPath text condition for one (already lower-cased) keyword: the
element's normalized, ASCII-lower-cased text contains the keyword. -/
def textMatches (keyword : String) (e : Element) : Bool :=
  substrB keyword.data (asciiLower (normalizeSpace e.text)).data

/-- Keyword preprocessing of `findClickableByText`: drop keywords that are
blank after trimming, then trim and lower-case the rest, keeping order. -/
def processedKeywords (keywords : List String) : List String :=
  (keywords.filter (fun k => !(trimChars k.data).isEmpty)).map
    (fun k => asciiLower (trimChars k.data).asString)

/-- The scan of `findClickableByText`: for each keyword in order, collect
the elements of an allowed tag whose text matches (document order), and
return the first of those that is visible; elements inspected but not
returned are disposed. -/
def scanKeywords (tagNames : List String) (elems : List Element) :
    List String → Option Element
  | [] => none
  | k :: ks =>
    match (elems.filter
        (fun e => tagNames.contains e.tag && textMatches k e)).find?
        isElementVisible with
    | some e => some e
    | none => scanKeywords tagNames elems ks

/-- `findClickableByText`: guard against an empty keyword list, preprocess
the keywords, and scan.  The result is `none` — never an exception — when
no visible textual match exists. -/
def findClickableByText (keywords : List String) (tagNames : List String)
    (elems : List Element) : Option Element :=
  if keywords.isEmpty then none
  else
    let lowerKeywords := processedKeywords keywords
    if lowerKeywords.isEmpty then none
    else scanKeywords tagNames elems lowerKeywords

/-- The default allowed tag set of `findClickableByText`. -/
def defaultTagNames : List String := ["button", "a", "div", "span"]

/-! ## File names of the standalone export scripts -/

/-- Characters invalid in a Windows file name
(`[System.IO.Path]::GetInvalidFileNameChars()`): the printable specials
plus the control range. -/
def windowsInvalidChar (c : Char) : Bool :=
  c = '<' || c = '>' || c = ':' || c = '"' || c = '/' || c = '\\'
    || c = '|' || c = '?' || c = '*' || decide (c.toNat < 32)

/-- Domain sanitisation of the 111.bat export script: invalid file-name
characters become underscores, an empty result falls back to
`unknown-domain`. -/
def batSanitizeDomain (domain : String) : String :=
  let safe := (domain.data.map
    (fun c => if windowsInvalidChar c then '_' else c)).asString
  if safe = "" then "unknown-domain" else safe

/-- The output file name of the 111.bat export script:
`"{0}{1}.txt" -f $safeDomain, $randomSuffix`, where `rand` models the
`Get-Random -Minimum 10000 -Maximum 99999` draw. -/
def batCookieFileName (domain : String) (rand : Nat) : String :=
  batSanitizeDomain domain ++ toString rand ++ ".txt"

/-! ## Operation traces over one registry (for the id invariant) -/

/-- An external operation on one `SandboxManager`. -/
inductive Op where
  | create (opts : CreateOptions)
  | delete (id : Nat)

/-- Apply one operation, returning the new state and the ids assigned to
sandboxes created by this operation (empty for delete and for rejected
requests). -/
def applyOp (m : Manager) : Op → Manager × List Nat
  | .create opts =>
    match createSandboxes m opts with
    | .ok (mNew, _, ids) => (mNew, ids)
    | .error _ => (m, [])
  | .delete id =>
    match deleteSandbox m id with
    | .ok (mNew, _) => (mNew, [])
    | .error _ => (m, [])

/-- Run a sequence of operations, collecting every assigned id in
chronological creation order. -/
def runOps (m : Manager) : List Op → Manager × List Nat
  | [] => (m, [])
  | op :: ops =>
    let step := applyOp m op
    let rest := runOps step.1 ops
    (rest.1, step.2 ++ rest.2)

/-- All ids assigned over an operation sequence started on a fresh
manager, in creation order. -/
def assignedIds (ops : List Op) : List Nat :=
  (runOps Manager.fresh ops).2

/-! ## Credential scrubbing (for the snapshot noninterference claim) -/

/-- Replace the password and recovery email of a sandbox's bound identity
(when one is bound), leaving everything else unchanged. -/
def setCredentials (s : Sandbox) (p r : String) : Sandbox :=
  { s with
    account := s.account.map
      (fun a => { a with password := p, recoveryEmail := r }) }

/-- Scrub every bound identity's password and recovery email in the
registry. -/
def scrubManager (m : Manager) (p r : String) : Manager :=
  { m with
    sandboxes := m.sandboxes.map
      (fun kv => (kv.1, setCredentials kv.2 p r)) }

/-! ## Helper lemmas -/

theorem splitOnChar_of_not_mem {sep : Char} {cs : List Char}
    (h : sep ∉ cs) : splitOnChar sep cs = [cs] := by
  induction cs with
  | nil => rfl
  | cons c cs ih =>
    simp only [List.mem_cons, not_or] at h
    simp only [splitOnChar]
    rw [if_neg (by exact fun hc => h.1 hc.symm)]
    rw [ih h.2]

theorem splitOnChar_append {sep : Char} {xs : List Char}
    (h : sep ∉ xs) (ys : List Char) :
    splitOnChar sep (xs ++ sep :: ys) = xs :: splitOnChar sep ys := by
  induction xs with
  | nil => simp [splitOnChar]
  | cons c cs ih =>
    simp only [List.mem_cons, not_or] at h
    simp only [List.cons_append, splitOnChar]
    rw [if_neg (by exact fun hc => h.1 hc.symm)]
    rw [show cs.append (sep :: ys) = cs ++ sep :: ys from rfl, ih h.2]

theorem sanitizeFilename_safe (s : String) :
    (sanitizeFilename s).data.all isSafeChar = true := by
  simp only [sanitizeFilename, List.asString, List.all_map]
  rw [List.all_eq_true]
  intro c _
  by_cases h : isSafeChar c = true
  · simp [h]
  · simp only [Function.comp]
    rw [if_neg h]
    rfl

theorem trimChars_of_ends {cs : List Char}
    (hh : ∀ c, cs.head? = some c → isSpaceB c = false)
    (hl : ∀ c, cs.getLast? = some c → isSpaceB c = false) :
    trimChars cs = cs := by
  unfold trimChars
  have h1 : cs.dropWhile isSpaceB = cs := by
    cases cs with
    | nil => rfl
    | cons c t =>
      rw [List.dropWhile_cons, if_neg (by simp [hh c rfl])]
  rw [h1]
  have h2 : cs.reverse.dropWhile isSpaceB = cs.reverse := by
    cases hr : cs.reverse with
    | nil => rfl
    | cons d t =>
      have hd : cs.getLast? = some d := by
        rw [← List.head?_reverse, hr]; rfl
      rw [List.dropWhile_cons, if_neg (by simp [hl d hd])]
  rw [h2, List.reverse_reverse]

/-! ## C1: harvest failure semantics -/

/-- Claim C1 counterexample: a sandbox whose pipeline reached the harvest
step but whose control channel cannot be opened is moved to status
`error` — the `saveCookies` rejection propagates to the catch handler of
`launchSandbox` — contradicting the claim that a failed harvest never
moves the sandbox to `error`. -/
theorem c1_channel_failure_sets_error :
    (harvestStep
      ⟨7, "initializing", "https://example.com", none, false, false,
        some "profile-7", true, true, none, none, none⟩
      none "example.com").status = "error" := by
  rfl

/-- Claim C1 (amended): a harvest that opens the control channel but
returns no cookies records no cookie file and leaves the pipeline on its
success path (the sandbox proceeds to `running` exactly as if cookies had
been found); a harvest returning cookies records the cookie file and also
proceeds to `running`; but a harvest whose control channel cannot be
opened moves the sandbox to `error`. -/
theorem c1_harvest_failure_semantics (s : Sandbox) (hostname : String) :
    harvestStep s (some []) hostname = { s with status := "running" }
    ∧ (harvestStep s (some []) hostname).cookieFile = s.cookieFile
    ∧ (∀ c cs, harvestStep s (some (c :: cs)) hostname =
        { s with
          status := "running"
          cookieFile :=
            some (cookieFileName s.account s.id (stripWww hostname)) })
    ∧ (harvestStep s none hostname).status = "error" := by
  refine ⟨rfl, rfl, fun c cs => rfl, rfl⟩

/-! ## C9: cookie file naming -/

/-- Claim C9 counterexample: in the Node backend, a harvest with no bound
identity names the file `sandbox-<id>-<domain>.txt` — the sandbox id is a
deterministic prefix, and the character just before the `.txt` extension
is the last domain character, not a digit, so the name carries no random
numeric suffix. -/
theorem c9_no_identity_name_not_random :
    cookieFileName none 3 "example.com" = "sandbox-3-example.com.txt"
    ∧ ((cookieFileName none 3 "example.com").data.reverse.drop 4).head?.map
        Char.isDigit = some false := by
  exact ⟨rfl, rfl⟩

/-- Claim C9 (amended): the Node backend derives the file name from the
bound identity's sanitized email and the sanitized visited domain; when no
identity is bound it uses `sandbox-<id>` in place of the email part (a
deterministic id, not a random suffix).  Sanitized parts contain only
file-name-safe characters.  The standalone 111.bat export script, which
never binds an identity, names files by the sanitized domain followed by
the random numeric draw. -/
theorem c9_cookie_file_names :
    (∀ (a : IdentityRecord) (id : Nat) (d : String),
      cookieFileName (some a) id d =
        sanitizeFilename a.email ++ "-" ++ sanitizeFilename d ++ ".txt")
    ∧ (∀ (id : Nat) (d : String),
      cookieFileName none id d =
        "sandbox-" ++ toString id ++ "-" ++ sanitizeFilename d ++ ".txt")
    ∧ (∀ s : String, (sanitizeFilename s).data.all isSafeChar = true)
    ∧ (∀ (d : String) (rand : Nat),
      batCookieFileName d rand =
        batSanitizeDomain d ++ toString rand ++ ".txt") := by
  exact ⟨fun a id d => rfl, fun id d => rfl, sanitizeFilename_safe,
    fun d rand => rfl⟩

/-! ## C10: snapshots expose no credentials -/

/-- Claim C10: a snapshot exposes exactly the fields id, status,
defaultUrl, currentUrl, the bound account's email (or null), cookieFile
and error; consequently the output of `listSandboxes` is unchanged under
any change of every bound identity's password and recovery email. -/
theorem c10_snapshots_credential_independent :
    (∀ s : Sandbox, serializeSandbox s =
      ⟨s.id, s.status, s.defaultUrl, s.currentUrl,
        s.account.map IdentityRecord.email, s.cookieFile, s.error⟩)
    ∧ (∀ (m : Manager) (p r : String),
      listSandboxes (scrubManager m p r) = listSandboxes m) := by
  constructor
  · intro s; rfl
  · intro m p r
    simp only [listSandboxes, scrubManager, List.map_map]
    apply List.map_congr_left
    intro kv _
    simp only [Function.comp_apply, serializeSandbox, setCredentials]
    cases kv.2.account <;> rfl

/-! ## C2: deletion ordering -/

theorem registryFind_filter_self (m : Manager) (id : Nat) :
    registryFind
      { m with sandboxes := m.sandboxes.filter (fun p => p.1 ≠ id) } id
      = none := by
  have h : List.find? (fun p => decide (p.1 = id))
      (List.filter (fun p => decide (p.1 ≠ id)) m.sandboxes) = none := by
    rw [List.find?_eq_none]
    intro p hp
    have := (List.mem_filter.mp hp).2
    simp only [decide_eq_true_eq] at this ⊢
    exact this
  simp only [registryFind]
  rw [h]
  rfl

/-- Claim C2: `deleteSandbox(id)` fails with NotFound when the id is not
registered (changing nothing, since the error is raised before any
mutation); otherwise, for a sandbox with a live browser and an allocated
profile directory, it performs exactly the trace terminate-browser, then
remove-profile-directory, then remove-registry-entry, in that order, after
which the id is no longer registered. -/
theorem c2_deleteSandbox_order (m : Manager) (id : Nat) :
    (registryFind m id = none →
      deleteSandbox m id = Except.error "找不到指定的沙箱")
    ∧ (∀ s : Sandbox, registryFind m id = some s →
        s.browser = true → s.userDataDir.isSome = true →
        deleteSandbox m id =
          Except.ok
            ({ m with sandboxes := m.sandboxes.filter (fun p => p.1 ≠ id) },
             [DelAction.terminateBrowser, DelAction.removeProfileDir,
              DelAction.removeRegistryEntry])
        ∧ registryFind
            { m with sandboxes := m.sandboxes.filter (fun p => p.1 ≠ id) } id
            = none) := by
  constructor
  · intro h
    simp [deleteSandbox, h]
  · intro s hs hb hd
    refine ⟨?_, registryFind_filter_self m id⟩
    simp [deleteSandbox, hs, hb, hd]

/-- Witness for C2 at a concrete registry: a manager holding sandbox 1
with a live browser and a profile directory. -/
theorem c2_deleteSandbox_order_witness :
    deleteSandbox
      { sequence := 2,
        sandboxes := [(1,
          ⟨1, "running", "https://example.com", none, false, false,
            some "profile-1", true, true, none, none, none⟩)] } 1 =
      Except.ok
        ({ sequence := 2, sandboxes := [] },
         [DelAction.terminateBrowser, DelAction.removeProfileDir,
          DelAction.removeRegistryEntry]) := by
  have h := (c2_deleteSandbox_order
    { sequence := 2,
      sandboxes := [(1,
        ⟨1, "running", "https://example.com", none, false, false,
          some "profile-1", true, true, none, none, none⟩)] } 1).2
    ⟨1, "running", "https://example.com", none, false, false,
      some "profile-1", true, true, none, none, none⟩
    rfl rfl rfl
  exact h.1

/-! ## C3: create validation -/

/-- Claim C3 counterexample: a create request with count 0 (a non-positive
count) is not rejected — `Number(count || 1)` turns 0 into 1, so the
request succeeds and registers one sandbox entry, returning one
snapshot. -/
theorem c3_count_zero_not_rejected :
    (createSandboxes Manager.fresh
      { count := some 0, defaultUrl := some "https://example.com",
        useGoogleLogin := false, enableSiteAutomation := false,
        accounts := [], rawAccounts := "" }).map
      (fun t => (t.1.sandboxes.length, t.2.1.length))
      = Except.ok (1, 1) := by
  rfl

/-- Claim C3 (amended): `createSandboxes` validates only the target URL —
a missing, non-string or empty `defaultUrl` is rejected with an error
before anything is registered.  The count is not validated: a count of 0
or an absent count is treated as 1 and a negative count registers zero
entries without an error.  A request with a valid URL registers exactly
`(effectiveCount count).toNat` entries, every returned snapshot has status
`initializing`, and one pipeline is started per created entry; the
snapshots are produced synchronously from the just-registered records. -/
theorem c3_createSandboxes_validation (m : Manager) (opts : CreateOptions) :
    ((opts.defaultUrl = none ∨ opts.defaultUrl = some "") →
      createSandboxes m opts = Except.error "必须提供默认打开的链接")
    ∧ (∀ url, opts.defaultUrl = some url → url ≠ "" →
      (createSandboxes m opts).map
        (fun t => (t.1.sandboxes.length, t.2.1.map Snapshot.status,
          t.2.2.length))
        = Except.ok
            (m.sandboxes.length + (effectiveCount opts.count).toNat,
             List.replicate (effectiveCount opts.count).toNat "initializing",
             (effectiveCount opts.count).toNat)) := by
  constructor
  · rintro (h | h) <;> simp [createSandboxes, h]
  · intro url hu hne
    simp only [createSandboxes, hu, if_neg hne, Except.map]
    refine congrArg Except.ok ?_
    refine Prod.ext ?_ (Prod.ext ?_ ?_)
    · simp
    · simp only [List.map_map]
      rw [List.eq_replicate_iff]
      refine ⟨by simp, ?_⟩
      intro b hb
      simp only [List.mem_map] at hb
      obtain ⟨i, _, hib⟩ := hb
      simp only [Function.comp_apply, serializeSandbox, mkSandbox] at hib
      exact hib.symm
    · simp

/-- Witness for C3 at concrete inputs: a request without a URL is
rejected, and a valid request with count 3 on a fresh manager registers
three initializing entries and starts three pipelines. -/
theorem c3_createSandboxes_validation_witness :
    createSandboxes Manager.fresh
      { count := some 3, defaultUrl := none,
        useGoogleLogin := false, enableSiteAutomation := false,
        accounts := [], rawAccounts := "" }
      = Except.error "必须提供默认打开的链接"
    ∧ (createSandboxes Manager.fresh
      { count := some 3, defaultUrl := some "https://example.com",
        useGoogleLogin := false, enableSiteAutomation := false,
        accounts := [], rawAccounts := "" }).map
      (fun t => (t.1.sandboxes.length, t.2.1.map Snapshot.status,
        t.2.2.length))
      = Except.ok (0 + 3, List.replicate 3 "initializing", 3) := by
  constructor
  · exact (c3_createSandboxes_validation Manager.fresh
      { count := some 3, defaultUrl := none,
        useGoogleLogin := false, enableSiteAutomation := false,
        accounts := [], rawAccounts := "" }).1 (Or.inl rfl)
  · exact (c3_createSandboxes_validation Manager.fresh
      { count := some 3, defaultUrl := some "https://example.com",
        useGoogleLogin := false, enableSiteAutomation := false,
        accounts := [], rawAccounts := "" }).2 "https://example.com" rfl
      (by decide)

/-! ## C5: round-robin identity assignment -/

/-- Claim C5: within one create request with a valid URL, the sandbox
created at index i is bound to pool entry `i mod k` of the parsed identity
pool (and to no identity when the pool is empty; note that for an empty
pool both sides are `none` since `l[i % 0]?` is `l[i]?` on the empty
list). -/
theorem c5_round_robin (m : Manager) (opts : CreateOptions) (url : String)
    (hu : opts.defaultUrl = some url) (hne : url ≠ "") :
    (createSandboxes m opts).map (fun t =>
        (t.1.sandboxes.drop m.sandboxes.length).map (fun p => p.2.account))
      = Except.ok
          ((List.range (effectiveCount opts.count).toNat).map (fun i =>
            (parseAccounts opts.accounts opts.rawAccounts)[
              i % (parseAccounts opts.accounts opts.rawAccounts).length]?)) := by
  simp only [createSandboxes, hu, if_neg hne, Except.map]
  refine congrArg Except.ok ?_
  rw [List.drop_left, List.map_map, List.map_map]
  apply List.map_congr_left
  intro i _
  by_cases hp : 0 < (parseAccounts opts.accounts opts.rawAccounts).length
  · simp [mkSandbox, hp]
  · have hnil : parseAccounts opts.accounts opts.rawAccounts = [] := by
      cases hq : parseAccounts opts.accounts opts.rawAccounts with
      | nil => rfl
      | cons a l => rw [hq] at hp; simp at hp
    simp [mkSandbox, hp, hnil]

/-- Witness for C5: `create(count=5)` against a two-identity pool binds the
five sandboxes to pool indices 0, 1, 0, 1, 0. -/
theorem c5_round_robin_witness :
    (createSandboxes Manager.fresh
      { count := some 5, defaultUrl := some "https://example.com",
        useGoogleLogin := true, enableSiteAutomation := false,
        accounts := [⟨"a@x.com", "p1", "r1"⟩, ⟨"b@x.com", "p2", "r2"⟩],
        rawAccounts := "" }).map (fun t =>
        (t.1.sandboxes.drop Manager.fresh.sandboxes.length).map
          (fun p => p.2.account))
      = Except.ok
          [some ⟨"a@x.com", "p1", "r1"⟩, some ⟨"b@x.com", "p2", "r2"⟩,
           some ⟨"a@x.com", "p1", "r1"⟩, some ⟨"b@x.com", "p2", "r2"⟩,
           some ⟨"a@x.com", "p1", "r1"⟩] := by
  rw [c5_round_robin Manager.fresh
    { count := some 5, defaultUrl := some "https://example.com",
      useGoogleLogin := true, enableSiteAutomation := false,
      accounts := [⟨"a@x.com", "p1", "r1"⟩, ⟨"b@x.com", "p2", "r2"⟩],
      rawAccounts := "" } "https://example.com" rfl (by decide)]
  rfl

/-! ## C6: ids unique, strictly increasing, never reused -/

theorem applyOp_ids_spec (m : Manager) (op : Op) :
    List.Pairwise (· < ·) (applyOp m op).2
    ∧ (∀ i ∈ (applyOp m op).2,
        m.sequence ≤ i ∧ i < (applyOp m op).1.sequence)
    ∧ m.sequence ≤ (applyOp m op).1.sequence := by
  cases op with
  | delete id =>
    simp only [applyOp]
    cases hf : registryFind m id with
    | none => simp [deleteSandbox, hf]
    | some s => simp [deleteSandbox, hf]
  | create opts =>
    cases hu : opts.defaultUrl with
    | none => simp [applyOp, createSandboxes, hu]
    | some url =>
      by_cases hne : url = ""
      · simp [applyOp, createSandboxes, hu, hne]
      · simp only [applyOp, createSandboxes, hu, if_neg hne,
          List.map_map]
        have hids :
            (List.range (effectiveCount opts.count).toNat).map
              (Sandbox.id ∘ fun i =>
                mkSandbox (m.sequence + i) url opts
                  (if (parseAccounts opts.accounts opts.rawAccounts).length
                      > 0 then
                    (parseAccounts opts.accounts opts.rawAccounts)[
                      i % (parseAccounts opts.accounts
                        opts.rawAccounts).length]?
                  else none))
            = (List.range (effectiveCount opts.count).toNat).map
                (fun i => m.sequence + i) := by
          apply List.map_congr_left
          intro i _
          rfl
        rw [hids]
        refine ⟨?_, ?_, by simp⟩
        · rw [List.pairwise_map]
          exact (List.pairwise_lt_range _).imp
            (fun hab => Nat.add_lt_add_left hab m.sequence)
        · intro i hi
          simp only [List.mem_map, List.mem_range] at hi
          obtain ⟨j, hj, rfl⟩ := hi
          exact ⟨Nat.le_add_right _ _, by simpa using hj⟩

theorem runOps_ids_spec (ops : List Op) : ∀ m : Manager,
    List.Pairwise (· < ·) (runOps m ops).2
    ∧ (∀ i ∈ (runOps m ops).2,
        m.sequence ≤ i ∧ i < (runOps m ops).1.sequence)
    ∧ m.sequence ≤ (runOps m ops).1.sequence := by
  induction ops with
  | nil =>
    intro m
    exact ⟨List.Pairwise.nil, by simp [runOps], le_refl _⟩
  | cons op ops ih =>
    intro m
    obtain ⟨hp1, hb1, hs1⟩ := applyOp_ids_spec m op
    obtain ⟨hp2, hb2, hs2⟩ := ih (applyOp m op).1
    simp only [runOps]
    refine ⟨?_, ?_, le_trans hs1 hs2⟩
    · rw [List.pairwise_append]
      refine ⟨hp1, hp2, ?_⟩
      intro a ha b hb
      exact lt_of_lt_of_le (hb1 a ha).2 (hb2 b hb).1
    · intro i hi
      rcases List.mem_append.mp hi with hi | hi
      · exact ⟨(hb1 i hi).1, lt_of_lt_of_le (hb1 i hi).2 hs2⟩
      · exact ⟨le_trans hs1 (hb2 i hi).1, (hb2 i hi).2⟩

/-- Claim C6: over any sequence of create and delete operations on one
registry, the assigned sandbox ids are strictly increasing in creation
order, hence pairwise distinct — an id is never reused, in particular not
after its sandbox is deleted (delete never decreases the sequence
counter). -/
theorem c6_ids_strictly_increasing (ops : List Op) :
    List.Pairwise (· < ·) (assignedIds ops)
    ∧ (assignedIds ops).Nodup := by
  have h := (runOps_ids_spec ops Manager.fresh).1
  exact ⟨h, h.imp (fun hab => Nat.ne_of_lt hab)⟩

/-! ## C8: the clickable-text matcher -/

theorem find?_filter_eq {α : Type} (l : List α) (p q : α → Bool) :
    (l.filter p).find? q = l.find? (fun a => p a && q a) := by
  induction l with
  | nil => rfl
  | cons a l ih =>
    cases hp : p a <;> cases hq : q a <;>
      simp [List.filter_cons, List.find?_cons, hp, hq, ih]

theorem scanKeywords_eq (tagNames : List String) (elems : List Element)
    (ks : List String) :
    scanKeywords tagNames elems ks
      = ks.findSome? (fun k => elems.find? (fun e =>
          tagNames.contains e.tag && textMatches k e
            && isElementVisible e)) := by
  induction ks with
  | nil => rfl
  | cons k ks ih =>
    simp only [scanKeywords, List.findSome?_cons, find?_filter_eq, ih]
    generalize List.find?
      (fun a => tagNames.contains a.tag && textMatches k a
        && isElementVisible a) elems = res
    cases res <;> rfl

/-- Claim C8: `findClickableByText` returns exactly the first element —
scanning processed keywords in list order and elements in document order
within a keyword — whose tag is allowed, whose normalized lower-cased text
contains the keyword, and which is geometrically visible; it returns
`none` precisely when no element qualifies for any keyword, and never
throws (it is a total function).  The spec example: with keywords
`Sign in` and `登录`, where only the second element contains `用户登录`,
the visible second element is returned, and `none` when that element is
hidden via `display:none`. -/
theorem c8_first_visible_match (keywords tagNames : List String)
    (elems : List Element) :
    (findClickableByText keywords tagNames elems
      = (processedKeywords keywords).findSome? (fun k =>
          elems.find? (fun e => tagNames.contains e.tag && textMatches k e
            && isElementVisible e)))
    ∧ (findClickableByText keywords tagNames elems = none ↔
        ∀ k ∈ processedKeywords keywords, ∀ e ∈ elems,
          ¬(tagNames.contains e.tag = true ∧ textMatches k e = true ∧
            isElementVisible e = true))
    ∧ findClickableByText ["Sign in", "登录"] defaultTagNames
        [⟨"div", "Welcome", "", "", 10, 10⟩,
         ⟨"button", "用户登录", "", "", 5, 5⟩]
        = some ⟨"button", "用户登录", "", "", 5, 5⟩
    ∧ findClickableByText ["Sign in", "登录"] defaultTagNames
        [⟨"div", "Welcome", "", "", 10, 10⟩,
         ⟨"button", "用户登录", "none", "", 5, 5⟩]
        = none := by
  have hmain : findClickableByText keywords tagNames elems
      = (processedKeywords keywords).findSome? (fun k =>
          elems.find? (fun e => tagNames.contains e.tag && textMatches k e
            && isElementVisible e)) := by
    by_cases hk : keywords.isEmpty
    · have hknil : keywords = [] := List.isEmpty_iff.mp hk
      subst hknil
      simp [findClickableByText, processedKeywords]
    · by_cases hl : (processedKeywords keywords).isEmpty
      · simp only [findClickableByText, if_neg hk, if_pos hl,
          List.isEmpty_iff.mp hl, List.findSome?_nil]
        rfl
      · simp only [findClickableByText, if_neg hk, if_neg hl]
        exact scanKeywords_eq tagNames elems (processedKeywords keywords)
  refine ⟨hmain, ?_, by decide, by decide⟩
  rw [hmain, List.findSome?_eq_none_iff]
  constructor
  · intro h k hk e he hq
    have := List.find?_eq_none.mp (h k hk) e he
    simp only [Bool.and_eq_true] at this
    exact this ⟨⟨hq.1, hq.2.1⟩, hq.2.2⟩
  · intro h k hk
    rw [List.find?_eq_none]
    intro e he hq
    simp only [Bool.and_eq_true] at hq
    exact h k hk e he ⟨hq.1.1, hq.1.2, hq.2⟩

/-! ## C4: de-duplication and sorting of harvested cookies -/

theorem alookup_upsert (k k2 : String) (c : Cookie)
    (m : List (String × Cookie)) :
    alookup k (upsert k2 c m) = if k2 = k then some c else alookup k m := by
  induction m with
  | nil => by_cases h : k2 = k <;> simp [upsert, alookup, h]
  | cons p rest ih =>
    by_cases h1 : p.1 = k2
    · by_cases h2 : k2 = k
      · simp [upsert, alookup, h1, h2]
      · have hp : ¬p.1 = k := by rw [h1]; exact h2
        simp [upsert, alookup, h1, h2, hp]
    · by_cases h2 : p.1 = k
      · have hk : ¬k2 = k := by
          intro he
          exact h1 (by rw [h2, he])
        simp only [upsert, if_neg h1, alookup, if_pos h2, if_neg hk]
      · simp [upsert, alookup, h1, h2, ih]

theorem alookup_foldl (cs : List Cookie) :
    ∀ (m : List (String × Cookie)) (k : String),
    alookup k (cs.foldl (fun acc c => upsert (cookieKey c) c acc) m)
      = match lastWithKey k cs with
        | some c => some c
        | none => alookup k m := by
  induction cs with
  | nil => intro m k; rfl
  | cons c cs ih =>
    intro m k
    rw [List.foldl_cons, ih]
    simp only [lastWithKey]
    cases hl : lastWithKey k cs with
    | some d => rfl
    | none =>
      rw [alookup_upsert]
      by_cases hk : cookieKey c = k <;> simp [hk]

theorem mem_upsert {p : String × Cookie} {k : String} {c : Cookie}
    {m : List (String × Cookie)} (h : p ∈ upsert k c m) :
    p = (k, c) ∨ p ∈ m := by
  induction m with
  | nil => simpa [upsert] using h
  | cons q rest ih =>
    by_cases hq : q.1 = k
    · rw [upsert, if_pos hq] at h
      rcases List.mem_cons.mp h with h | h
      · exact Or.inl h
      · exact Or.inr (List.mem_cons_of_mem q h)
    · rw [upsert, if_neg hq] at h
      rcases List.mem_cons.mp h with h | h
      · exact Or.inr (h ▸ List.mem_cons_self q rest)
      · rcases ih h with h | h
        · exact Or.inl h
        · exact Or.inr (List.mem_cons_of_mem q h)

theorem cookiesMap_wellKeyed (cs : List Cookie) :
    ∀ (m : List (String × Cookie)),
    (∀ p ∈ m, p.1 = cookieKey p.2) →
    ∀ p ∈ cs.foldl (fun acc c => upsert (cookieKey c) c acc) m,
      p.1 = cookieKey p.2 := by
  induction cs with
  | nil => intro m hm p hp; exact hm p hp
  | cons c cs ih =>
    intro m hm p hp
    rw [List.foldl_cons] at hp
    refine ih (upsert (cookieKey c) c m) ?_ p hp
    intro q hq
    rcases mem_upsert hq with h | h
    · rw [h]
    · exact hm q h

theorem mem_keys_upsert {j k : String} {c : Cookie}
    {m : List (String × Cookie)} :
    j ∈ (upsert k c m).map Prod.fst ↔ j = k ∨ j ∈ m.map Prod.fst := by
  induction m with
  | nil => simp [upsert]
  | cons q rest ih =>
    by_cases hq : q.1 = k
    · rw [upsert, if_pos hq]
      simp [hq]
    · rw [upsert, if_neg hq]
      simp only [List.map_cons, List.mem_cons, ih]
      tauto

theorem nodup_keys_upsert {k : String} {c : Cookie}
    {m : List (String × Cookie)} (h : (m.map Prod.fst).Nodup) :
    ((upsert k c m).map Prod.fst).Nodup := by
  induction m with
  | nil => simp [upsert]
  | cons q rest ih =>
    simp only [List.map_cons, List.nodup_cons] at h
    by_cases hq : q.1 = k
    · rw [upsert, if_pos hq]
      simp only [List.map_cons, List.nodup_cons]
      exact ⟨by rw [← hq]; exact h.1, h.2⟩
    · rw [upsert, if_neg hq]
      simp only [List.map_cons, List.nodup_cons]
      refine ⟨?_, ih h.2⟩
      rw [mem_keys_upsert]
      rintro (he | he)
      · exact hq he
      · exact h.1 he

theorem cookiesMap_nodup_keys (cs : List Cookie) :
    ∀ (m : List (String × Cookie)),
    (m.map Prod.fst).Nodup →
    ((cs.foldl (fun acc c => upsert (cookieKey c) c acc) m).map
      Prod.fst).Nodup := by
  induction cs with
  | nil => intro m hm; exact hm
  | cons c cs ih =>
    intro m hm
    rw [List.foldl_cons]
    exact ih _ (nodup_keys_upsert hm)

theorem alookup_eq_some_of_mem {k : String} {c : Cookie}
    {m : List (String × Cookie)} (hnd : (m.map Prod.fst).Nodup)
    (h : (k, c) ∈ m) : alookup k m = some c := by
  induction m with
  | nil => cases h
  | cons q rest ih =>
    simp only [List.map_cons, List.nodup_cons] at hnd
    rcases List.mem_cons.mp h with h | h
    · rw [← h, alookup, if_pos rfl]
    · have hk : k ∈ rest.map Prod.fst :=
        List.mem_map_of_mem Prod.fst h
      by_cases hq : q.1 = k
      · exact absurd (hq ▸ hk) hnd.1
      · rw [alookup, if_neg hq]
        exact ih hnd.2 h

theorem mem_of_alookup_eq_some {k : String} {c : Cookie}
    {m : List (String × Cookie)} (h : alookup k m = some c) :
    (k, c) ∈ m := by
  induction m with
  | nil => cases h
  | cons q rest ih =>
    by_cases hq : q.1 = k
    · rw [alookup, if_pos hq] at h
      obtain ⟨q1, q2⟩ := q
      simp only [Option.some.injEq] at h
      simp only at hq
      subst hq
      subst h
      exact List.mem_cons_self _ _
    · rw [alookup, if_neg hq] at h
      exact List.mem_cons_of_mem q (ih h)

theorem mem_cookiesMap_values_iff (cs : List Cookie) (c : Cookie) :
    c ∈ (cookiesMap cs).map Prod.snd ↔
      alookup (cookieKey c) (cookiesMap cs) = some c := by
  have hwk := cookiesMap_wellKeyed cs [] (by intro p hp; cases hp)
  have hnd := cookiesMap_nodup_keys cs [] (by simp)
  constructor
  · intro h
    obtain ⟨⟨p1, p2⟩, hp, hpc⟩ := List.mem_map.mp h
    simp only at hpc
    have hk := hwk (p1, p2) hp
    simp only at hk
    rw [hpc] at hk hp
    rw [hk] at hp
    exact alookup_eq_some_of_mem hnd hp
  · intro h
    exact List.mem_map.mpr ⟨(cookieKey c, c), mem_of_alookup_eq_some h, rfl⟩

theorem keys_eq_values_map_key (cs : List Cookie) :
    (cookiesMap cs).map Prod.fst
      = ((cookiesMap cs).map Prod.snd).map cookieKey := by
  have hwk := cookiesMap_wellKeyed cs [] (by intro p hp; cases hp)
  rw [List.map_map]
  apply List.map_congr_left
  intro p hp
  exact hwk p hp

/-- Claim C4 counterexample: the Node backend's `saveCookies` writes
cookies to the file in the order the control channel returned them — two
cookies sharing (domain, name, path) but differing in value are both
written (no collapse to the later observation), and an input whose domains
arrive in descending order is written unsorted. -/
theorem c4_saveCookies_neither_dedups_nor_sorts :
    saveCookiesLines
      [⟨"sid", "v1", "example.com", "/"⟩, ⟨"sid", "v2", "example.com", "/"⟩]
      = ["sid=v1; Domain=example.com; Path=/",
         "sid=v2; Domain=example.com; Path=/"]
    ∧ (saveCookiesLines
      [⟨"sid", "v1", "example.com", "/"⟩, ⟨"sid", "v2", "example.com", "/"⟩]).length
      = 2
    ∧ saveCookiesLines
      [⟨"a", "1", "zzz.com", "/"⟩, ⟨"a", "1", "aaa.com", "/"⟩]
      = ["a=1; Domain=zzz.com; Path=/", "a=1; Domain=aaa.com; Path=/"] := by
  exact ⟨rfl, rfl, rfl⟩

/-- Claim C4 (amended): the 111.bat export script de-duplicates harvested
cookies by the key `domain|name|path` with last-observed-wins and sorts
the final set by (domain, path, name) before writing: the output is sorted,
contains no two cookies with the same key, and holds exactly the last
observation written to each key.  (The Node backend's `saveCookies`, by
contrast, writes the raw cookie list unchanged.) -/
theorem c4_exportCookies_dedup_sorted (cs : List Cookie) :
    List.Sorted cookieLE (exportCookies cs)
    ∧ List.Pairwise (fun a b => cookieKey a ≠ cookieKey b) (exportCookies cs)
    ∧ ∀ c : Cookie,
        (c ∈ exportCookies cs ↔ lastWithKey (cookieKey c) cs = some c) := by
  refine ⟨List.sorted_insertionSort cookieLE _, ?_, ?_⟩
  · have hperm := List.perm_insertionSort cookieLE
      ((cookiesMap cs).map Prod.snd)
    refine (List.Perm.pairwise_iff
      (R := fun a b => cookieKey a ≠ cookieKey b)
      (fun h => Ne.symm h) hperm).mpr ?_
    have hnd : ((cookiesMap cs).map Prod.fst).Nodup :=
      cookiesMap_nodup_keys cs [] (by simp)
    rw [keys_eq_values_map_key] at hnd
    rw [← List.pairwise_map]
    exact hnd
  · intro c
    rw [exportCookies, List.mem_insertionSort, mem_cookiesMap_values_iff]
    rw [show cookiesMap cs
      = cs.foldl (fun acc c => upsert (cookieKey c) c acc) [] from rfl]
    rw [alookup_foldl]
    cases hl : lastWithKey (cookieKey c) cs <;> simp [alookup, hl]

/-! ## C7: identity pool parsing -/

theorem containsB_true {l : List Char} {a : Char} (h : a ∈ l) :
    l.contains a = true := by
  simp [List.contains, h]

theorem containsB_false {l : List Char} {a : Char} (h : a ∉ l) :
    l.contains a = false := by
  simp [List.contains, h]

theorem trim_of_clean {f : List Char} (h : cleanField f) :
    trimChars f = f := by
  apply trimChars_of_ends
  · intro c hc
    cases f with
    | nil => cases hc
    | cons a t =>
      simp only [List.head?_cons, Option.some.injEq] at hc
      rw [← hc]
      exact (h.2 a (List.mem_cons_self a t)).1
  · intro c hc
    exact (h.2 c (List.mem_of_getLast?_eq_some hc)).1

theorem getLast?_line3 (e p r : List Char) (sep sep2 : Char) (hr : r ≠ []) :
    (e ++ sep :: (p ++ sep2 :: r)).getLast? = r.getLast? := by
  rw [List.getLast?_append_of_ne_nil e (by simp)]
  rw [show sep :: (p ++ sep2 :: r) = [sep] ++ (p ++ sep2 :: r) from rfl]
  rw [List.getLast?_append_of_ne_nil [sep] (by simp)]
  rw [List.getLast?_append_of_ne_nil p (by simp)]
  rw [show sep2 :: r = [sep2] ++ r from rfl]
  rw [List.getLast?_append_of_ne_nil [sep2] hr]

theorem getLast?_line2 (e p : List Char) (sep : Char) (hp : p ≠ []) :
    (e ++ sep :: p).getLast? = p.getLast? := by
  rw [List.getLast?_append_of_ne_nil e (by simp)]
  rw [show sep :: p = [sep] ++ p from rfl]
  rw [List.getLast?_append_of_ne_nil [sep] hp]

theorem trim_line3 (e p r : List Char) (sep sep2 : Char)
    (he : cleanField e) (hr : cleanField r) :
    trimChars (e ++ sep :: (p ++ sep2 :: r))
      = e ++ sep :: (p ++ sep2 :: r) := by
  apply trimChars_of_ends
  · intro c hc
    rcases e with _ | ⟨a, t⟩
    · exact absurd rfl he.1
    · simp only [List.cons_append, List.head?_cons,
        Option.some.injEq] at hc
      rw [← hc]
      exact (he.2 a (List.mem_cons_self a t)).1
  · intro c hc
    rw [getLast?_line3 e p r sep sep2 hr.1] at hc
    exact (hr.2 c (List.mem_of_getLast?_eq_some hc)).1

theorem trim_line2 (e p : List Char) (sep : Char)
    (he : cleanField e) (hp : cleanField p) :
    trimChars (e ++ sep :: p) = e ++ sep :: p := by
  apply trimChars_of_ends
  · intro c hc
    rcases e with _ | ⟨a, t⟩
    · exact absurd rfl he.1
    · simp only [List.cons_append, List.head?_cons,
        Option.some.injEq] at hc
      rw [← hc]
      exact (he.2 a (List.mem_cons_self a t)).1
  · intro c hc
    rw [getLast?_line2 e p sep hp.1] at hc
    exact (hp.2 c (List.mem_of_getLast?_eq_some hc)).1

theorem not_mem_line3 {s sep : Char} {e p r : List Char}
    (h1 : s ∉ e) (h2 : s ∉ p) (h3 : s ∉ r) (h4 : s ≠ sep) :
    s ∉ e ++ sep :: (p ++ sep :: r) := by
  intro hm
  rcases List.mem_append.mp hm with hm | hm
  · exact h1 hm
  · rcases List.mem_cons.mp hm with hm | hm
    · exact h4 hm
    · rcases List.mem_append.mp hm with hm | hm
      · exact h2 hm
      · rcases List.mem_cons.mp hm with hm | hm
        · exact h4 hm
        · exact h3 hm

theorem not_mem_line2 {s sep : Char} {e p : List Char}
    (h1 : s ∉ e) (h2 : s ∉ p) (h4 : s ≠ sep) :
    s ∉ e ++ sep :: p := by
  intro hm
  rcases List.mem_append.mp hm with hm | hm
  · exact h1 hm
  · rcases List.mem_cons.mp hm with hm | hm
    · exact h4 hm
    · exact h2 hm

theorem splitParts3 {e p r : List Char} {sep : Char}
    (he : cleanField e) (hp : cleanField p) (hr : cleanField r)
    (h1 : sep ∉ e) (h2 : sep ∉ p) (h3 : sep ∉ r) :
    (splitOnChar sep (e ++ sep :: (p ++ sep :: r))).map trimChars
      = [e, p, r] := by
  rw [splitOnChar_append h1, splitOnChar_append h2,
    splitOnChar_of_not_mem h3]
  simp [trim_of_clean he, trim_of_clean hp, trim_of_clean hr]

theorem splitParts2 {e p : List Char} {sep : Char}
    (he : cleanField e) (hp : cleanField p)
    (h1 : sep ∉ e) (h2 : sep ∉ p) :
    (splitOnChar sep (e ++ sep :: p)).map trimChars = [e, p] := by
  rw [splitOnChar_append h1, splitOnChar_of_not_mem h2]
  simp [trim_of_clean he, trim_of_clean hp]

theorem sepLoop_nil (clean : List Char) (parts : List (List Char)) :
    sepLoop clean parts [] = parts := rfl

theorem sepLoop_cons_miss {clean : List Char} {s : Char}
    (parts : List (List Char)) (rest : List Char)
    (hc : clean.contains s = false) :
    sepLoop clean parts (s :: rest) = sepLoop clean parts rest := by
  simp only [sepLoop]
  rw [hc, if_neg Bool.false_ne_true]

theorem sepLoop_cons_hit {clean : List Char} {s : Char}
    (parts : List (List Char)) (rest : List Char)
    (hc : clean.contains s = true)
    (h3 : 3 ≤ ((splitOnChar s clean).map trimChars).length) :
    sepLoop clean parts (s :: rest)
      = (splitOnChar s clean).map trimChars := by
  simp only [sepLoop]
  rw [hc, if_pos rfl, if_pos h3]

theorem sepLoop_cons_hit_short {clean : List Char} {s : Char}
    (parts : List (List Char)) (rest : List Char)
    (hc : clean.contains s = true)
    (h3 : ¬3 ≤ ((splitOnChar s clean).map trimChars).length) :
    sepLoop clean parts (s :: rest)
      = sepLoop clean ((splitOnChar s clean).map trimChars) rest := by
  simp only [sepLoop]
  rw [hc, if_pos rfl, if_neg h3]

theorem parseLine_eval {line : List Char}
    (htrim : trimChars line = line) (hne : line.isEmpty = false) :
    parseLine line =
      (match (if (sepLoop line [] [';', ',', '\t', '|']).length < 3
            && line.contains '-' then
          (splitOnChar '-' line).map trimChars
        else sepLoop line [] [';', ',', '\t', '|']) with
      | p0 :: p1 :: p2 :: _ =>
        some ⟨p0.asString, p1.asString, p2.asString⟩
      | _ => none) := by
  simp only [parseLine, htrim, hne, Bool.false_eq_true, if_false]

/-- Claim C7 counterexample: the line `a|b|c` contains none of the four
separators the claim lists (`;`, `,`, tab, `-`), so under the claim it
yields a single field and must be discarded; the parser nevertheless
accepts it, because `|` is also a recognised separator. -/
theorem c7_pipe_line_not_discarded :
    parseAccounts [] "a|b|c" = [⟨"a", "b", "c"⟩]
    ∧ ("a|b|c".data.all
        (fun c => !([';', ',', '\t', '-'] : List Char).contains c))
      = true := by
  exact ⟨rfl, rfl⟩

/-- Claim C7 (amended): each line of the raw account list is parsed with
fields in the fixed order email, password, recoveryEmail, the separators
being `;`, `,`, tab and `|` (tried in that order) with `-` as a fallback
when they yield fewer than three fields; a line yielding fewer than three
fields — here a two-field or separator-free line of clean field values —
contributes no identity record; and on a single line the whole of
`parseAccounts` reduces to this per-line parse. -/
theorem c7_separator_parsing :
    (∀ (e p r : List Char) (sep : Char),
      sep ∈ ([';', ',', '\t', '|', '-'] : List Char) →
      cleanField e → cleanField p → cleanField r →
      parseLine (e ++ sep :: (p ++ sep :: r))
        = some ⟨e.asString, p.asString, r.asString⟩)
    ∧ (∀ (e p : List Char) (sep : Char),
      sep ∈ ([';', ',', '\t', '|', '-'] : List Char) →
      cleanField e → cleanField p →
      parseLine (e ++ sep :: p) = none)
    ∧ (∀ e : List Char, cleanField e → parseLine e = none)
    ∧ (∀ line : List Char, ('\n' : Char) ∉ line → ('\r' : Char) ∉ line →
      parseAccounts [] line.asString = (parseLine line).toList) := by
  refine ⟨?_, ?_, ?_, ?_⟩
  · -- three clean fields joined by one separator parse to the record
    intro e p r sep hsep he hp hr
    have hnm : ∀ s ∈ ([';', ',', '\t', '|', '-'] : List Char),
        s ∉ e ∧ s ∉ p ∧ s ∉ r := fun s hs =>
      ⟨fun hm => (he.2 s hm).2 hs, fun hm => (hp.2 s hm).2 hs,
       fun hm => (hr.2 s hm).2 hs⟩
    have hsm := hnm sep hsep
    have htrim := trim_line3 e p r sep sep he hr
    have hnee : (e ++ sep :: (p ++ sep :: r)).isEmpty = false := by
      rcases e with _ | ⟨a, t⟩
      · exact absurd rfl he.1
      · rfl
    have hsplit := splitParts3 he hp hr hsm.1 hsm.2.1 hsm.2.2
    have hcsep : (e ++ sep :: (p ++ sep :: r)).contains sep = true :=
      containsB_true (List.mem_append.mpr
        (Or.inr (List.mem_cons_self _ _)))
    have hco : ∀ s ∈ ([';', ',', '\t', '|', '-'] : List Char), s ≠ sep →
        (e ++ sep :: (p ++ sep :: r)).contains s = false := by
      intro s hs hsne
      have h := hnm s hs
      exact containsB_false (not_mem_line3 h.1 h.2.1 h.2.2 hsne)
    rw [parseLine_eval htrim hnee]
    have hsep5 : sep = ';' ∨ sep = ',' ∨ sep = '\t' ∨ sep = '|'
        ∨ sep = '-' := by simpa using hsep
    rcases hsep5 with rfl | rfl | rfl | rfl | rfl
    · rw [sepLoop_cons_hit _ _ hcsep (by rw [hsplit]; simp), hsplit]
      rfl
    · rw [sepLoop_cons_miss _ _ (hco ';' (by simp) (by decide)),
        sepLoop_cons_hit _ _ hcsep (by rw [hsplit]; simp), hsplit]
      rfl
    · rw [sepLoop_cons_miss _ _ (hco ';' (by simp) (by decide)),
        sepLoop_cons_miss _ _ (hco ',' (by simp) (by decide)),
        sepLoop_cons_hit _ _ hcsep (by rw [hsplit]; simp), hsplit]
      rfl
    · rw [sepLoop_cons_miss _ _ (hco ';' (by simp) (by decide)),
        sepLoop_cons_miss _ _ (hco ',' (by simp) (by decide)),
        sepLoop_cons_miss _ _ (hco '\t' (by simp) (by decide)),
        sepLoop_cons_hit _ _ hcsep (by rw [hsplit]; simp), hsplit]
      rfl
    · rw [sepLoop_cons_miss _ _ (hco ';' (by simp) (by decide)),
        sepLoop_cons_miss _ _ (hco ',' (by simp) (by decide)),
        sepLoop_cons_miss _ _ (hco '\t' (by simp) (by decide)),
        sepLoop_cons_miss _ _ (hco '|' (by simp) (by decide)),
        sepLoop_nil, hcsep, if_pos (by decide), hsplit]
  · -- a two-field line is discarded
    intro e p sep hsep he hp
    have hnm : ∀ s ∈ ([';', ',', '\t', '|', '-'] : List Char),
        s ∉ e ∧ s ∉ p := fun s hs =>
      ⟨fun hm => (he.2 s hm).2 hs, fun hm => (hp.2 s hm).2 hs⟩
    have hsm := hnm sep hsep
    have htrim := trim_line2 e p sep he hp
    have hnee : (e ++ sep :: p).isEmpty = false := by
      rcases e with _ | ⟨a, t⟩
      · exact absurd rfl he.1
      · rfl
    have hsplit := splitParts2 he hp hsm.1 hsm.2
    have hcsep : (e ++ sep :: p).contains sep = true :=
      containsB_true (List.mem_append.mpr
        (Or.inr (List.mem_cons_self _ _)))
    have hco : ∀ s ∈ ([';', ',', '\t', '|', '-'] : List Char), s ≠ sep →
        (e ++ sep :: p).contains s = false := by
      intro s hs hsne
      have h := hnm s hs
      exact containsB_false (not_mem_line2 h.1 h.2 hsne)
    rw [parseLine_eval htrim hnee]
    have hsep5 : sep = ';' ∨ sep = ',' ∨ sep = '\t' ∨ sep = '|'
        ∨ sep = '-' := by simpa using hsep
    rcases hsep5 with rfl | rfl | rfl | rfl | rfl
    · rw [sepLoop_cons_hit_short _ _ hcsep (by rw [hsplit]; simp),
        sepLoop_cons_miss _ _ (hco ',' (by simp) (by decide)),
        sepLoop_cons_miss _ _ (hco '\t' (by simp) (by decide)),
        sepLoop_cons_miss _ _ (hco '|' (by simp) (by decide)),
        sepLoop_nil, hsplit, hco '-' (by simp) (by decide)]
      rfl
    · rw [sepLoop_cons_miss _ _ (hco ';' (by simp) (by decide)),
        sepLoop_cons_hit_short _ _ hcsep (by rw [hsplit]; simp),
        sepLoop_cons_miss _ _ (hco '\t' (by simp) (by decide)),
        sepLoop_cons_miss _ _ (hco '|' (by simp) (by decide)),
        sepLoop_nil, hsplit, hco '-' (by simp) (by decide)]
      rfl
    · rw [sepLoop_cons_miss _ _ (hco ';' (by simp) (by decide)),
        sepLoop_cons_miss _ _ (hco ',' (by simp) (by decide)),
        sepLoop_cons_hit_short _ _ hcsep (by rw [hsplit]; simp),
        sepLoop_cons_miss _ _ (hco '|' (by simp) (by decide)),
        sepLoop_nil, hsplit, hco '-' (by simp) (by decide)]
      rfl
    · rw [sepLoop_cons_miss _ _ (hco ';' (by simp) (by decide)),
        sepLoop_cons_miss _ _ (hco ',' (by simp) (by decide)),
        sepLoop_cons_miss _ _ (hco '\t' (by simp) (by decide)),
        sepLoop_cons_hit_short _ _ hcsep (by rw [hsplit]; simp),
        sepLoop_nil, hsplit, hco '-' (by simp) (by decide)]
      rfl
    · rw [sepLoop_cons_miss _ _ (hco ';' (by simp) (by decide)),
        sepLoop_cons_miss _ _ (hco ',' (by simp) (by decide)),
        sepLoop_cons_miss _ _ (hco '\t' (by simp) (by decide)),
        sepLoop_cons_miss _ _ (hco '|' (by simp) (by decide)),
        sepLoop_nil, hcsep, if_pos (by decide), hsplit]
  · -- a separator-free line is discarded
    intro e he
    have hc : ∀ s ∈ ([';', ',', '\t', '|', '-'] : List Char),
        e.contains s = false := fun s hs =>
      containsB_false (fun hm => (he.2 s hm).2 hs)
    have hnee : e.isEmpty = false := by
      rcases e with _ | ⟨a, t⟩
      · exact absurd rfl he.1
      · rfl
    rw [parseLine_eval (trim_of_clean he) hnee]
    rw [sepLoop_cons_miss _ _ (hc ';' (by simp)),
      sepLoop_cons_miss _ _ (hc ',' (by simp)),
      sepLoop_cons_miss _ _ (hc '\t' (by simp)),
      sepLoop_cons_miss _ _ (hc '|' (by simp)),
      sepLoop_nil, hc '-' (by simp)]
    rfl
  · -- parseAccounts of a single raw line is the per-line parse
    intro line h1 h2
    have hdata : (line.asString).data = line := rfl
    by_cases ht : (trimChars line).isEmpty = true
    · have hpl : parseLine line = none := by
        simp [parseLine, ht]
      simp [parseAccounts, hdata, ht, hpl]
    · have hsl : splitLines line = [line] := by
        unfold splitLines
        rw [splitOnChar_of_not_mem h1]
        simp only [List.map_cons, List.map_nil]
        rw [if_neg (fun hcr =>
          h2 (List.mem_of_getLast?_eq_some hcr))]
      rw [show parseAccounts [] line.asString
          = if (trimChars (line.asString).data).isEmpty then []
            else (splitLines (line.asString).data).filterMap parseLine
          from rfl]
      rw [hdata] at *
      rw [if_neg (by simp [ht]), hsl]
      cases hplv : parseLine line <;> simp [hplv]

/-- Witness for C7 at concrete fields: a standard `email;password;recovery`
line parses to the expected identity record. -/
theorem c7_separator_parsing_witness :
    cleanField "a@x.com".data ∧ cleanField "pw1".data
    ∧ cleanField "r@x.com".data
    ∧ parseLine
        ("a@x.com".data ++ ';' :: ("pw1".data ++ ';' :: "r@x.com".data))
      = some ⟨"a@x.com", "pw1", "r@x.com"⟩ := by
  refine ⟨by decide, by decide, by decide, ?_⟩
  rw [c7_separator_parsing.1 "a@x.com".data "pw1".data "r@x.com".data ';'
    (by decide) (by decide) (by decide) (by decide)]
  rfl

end SandboxPlatform
